import Mathlib

/-!
Shallow embedding of the voice-analysis pipeline of `src/app/src/app/page.tsx`:
the lexical normalizer, frequency/keyword extractor, sentiment/energy scorer,
cluster synthesizer, insight builder, reply generator and the session-state
transition `processChunk`.  JavaScript numbers are modelled as exact rationals,
JavaScript's stable `Array.prototype.sort` as insertion sort, and `Date.now()`
as an explicit `now : Nat` parameter.
-/

def STOP_WORDS : List String :=
  ["the", "and", "that", "have", "this", "with", "from", "your", "about",
   "there", "what", "when", "will", "would", "could", "should", "which",
   "into", "over", "under", "while", "where", "been", "were", "them",
   "they", "then", "than", "just", "like", "really", "maybe", "know",
   "want", "need", "please"]

def POSITIVE_TERMS : List String :=
  ["great", "good", "awesome", "excited", "optimistic", "love", "amazing",
   "win", "growth", "positive", "up", "better", "improve", "success",
   "increase"]

def NEGATIVE_TERMS : List String :=
  ["bad", "problem", "issue", "concern", "stuck", "risk", "down", "decline",
   "worse", "fail", "fear", "uncertain", "hard", "difficult"]

structure Cluster where
  label : String
  score : ℚ
  summary : String
deriving DecidableEq

structure Analysis where
  keywords : List String
  sentiment : ℚ
  energy : ℚ
  clusters : List Cluster
deriving DecidableEq

structure Insight where
  id : String
  label : String
  detail : String
  pulse : ℚ
  delta : ℚ
deriving DecidableEq

/-- The source helper `clamp(value, min, max) = Math.min(max, Math.max(min, value))`. -/
def clamp (value lo hi : ℚ) : ℚ := min hi (max lo value)

/-- JavaScript `String.prototype.trim`: remove leading and trailing whitespace. -/
def jsTrim (s : String) : String :=
  String.mk (((s.data.dropWhile Char.isWhitespace).reverse.dropWhile
    Char.isWhitespace).reverse)

/-- The source helper `capitalize`: `input.charAt(0).toUpperCase() + input.slice(1)`. -/
def capitalize (input : String) : String :=
  match input.data with
  | [] => ""
  | c :: rest => String.mk (c.toUpper :: rest)

/-- JavaScript `Math.round`, which rounds half-way cases up. -/
def jsRound (q : ℚ) : ℤ := ⌊q + 1 / 2⌋

/-- A character is a lowercase ASCII letter or a digit. -/
def isLowerAlnum (c : Char) : Bool :=
  (decide ('a' ≤ c) && decide (c ≤ 'z')) || (decide ('0' ≤ c) && decide (c ≤ '9'))

/-- One character of `content.toLowerCase().replace(/[^a-z0-9\s]/g, " ")`:
after lowercasing, every character that is not `[a-z0-9]` acts as a
separator for the subsequent whitespace split. -/
def normalizeChar (c : Char) : Char :=
  let lc := c.toLower
  if isLowerAlnum lc then lc else ' '

/-- The lexical normalizer: lowercase, replace non-`[a-z0-9]` by spaces,
split on whitespace, keep tokens of length > 2 that are not stop words
(the truthiness test on tokens is subsumed by `length > 2`). -/
def cleanTokens (content : String) : List String :=
  (((content.data.map normalizeChar).splitOn ' ').map String.mk).filter
    (fun token => decide (2 < token.length) && !(STOP_WORDS.contains token))

/-- The keys of the `frequency` `Map`, in insertion order: the order of first
occurrence in the token sequence. -/
def insertionOrderKeys : List String → List String
  | [] => []
  | t :: ts => t :: (insertionOrderKeys ts).filter (fun u => u != t)

/-- The keyword extractor `[...frequency.entries()].sort((a, b) => b[1] - a[1]).slice(0, 6).map(([token]) => token)`:
a stable descending sort of the distinct tokens by count, then the first 6. -/
def keywordsOf (clean : List String) : List String :=
  (List.insertionSort (fun a b => clean.count b ≤ clean.count a)
    (insertionOrderKeys clean)).take 6

def positiveHits (clean : List String) : Nat :=
  (clean.filter (fun token => POSITIVE_TERMS.contains token)).length

def negativeHits (clean : List String) : Nat :=
  (clean.filter (fun token => NEGATIVE_TERMS.contains token)).length

def sentimentOf (clean : List String) : ℚ :=
  clamp (((positiveHits clean : ℚ) - (negativeHits clean : ℚ)) / max (clean.length : ℚ) 4)
    (-1) 1

def energyOf (clean : List String) : ℚ :=
  clamp ((clean.length : ℚ) / 45 + |sentimentOf clean| * 0.45) 0 1

/-- The cluster synthesizer over `keywords.slice(0, 3)`; `frequency.get(keyword)`
is the occurrence count of the keyword in the token sequence. -/
def clustersOf (clean : List String) : List Cluster :=
  ((keywordsOf clean).take 3).map (fun keyword =>
    let scoreSeed := (clean.count keyword : ℚ) / max (clean.length : ℚ) 1
    let score := clamp (scoreSeed * 2 + energyOf clean * 0.6) 0 1
    { label := capitalize keyword
      score := score
      summary := "Emerging signal around “" ++ keyword ++ "” with "
        ++ toString (jsRound (score * 100)) ++ "% clarity." })

def analyzeText (content : String) : Analysis :=
  let clean := cleanTokens content
  if clean = [] then
    { keywords := [], sentiment := 0, energy := 0, clusters := [] }
  else
    { keywords := keywordsOf clean
      sentiment := sentimentOf clean
      energy := energyOf clean
      clusters := clustersOf clean }

def generateAgentReply (latestChunk : String) (analysis : Analysis) : String :=
  if jsTrim latestChunk = "" then
    "Ready when you are. Share your thought and I will map the field in real-time."
  else
    let tone :=
      if analysis.sentiment > 0.2 then "Uplifted"
      else if analysis.sentiment < -0.2 then "Cautious"
      else "Neutral"
    let headline := String.intercalate " · " ((analysis.keywords.take 2).map capitalize)
    let trendDirection :=
      if analysis.sentiment > 0.15 then "momentum is tilting upward"
      else if analysis.sentiment < -0.15 then "momentum is cooling down"
      else "signal is steady"
    let closing :=
      if analysis.energy > 0.7 then "Let\x27s chase that spike before it dissipates."
      else if analysis.energy < 0.3 then "We can probe deeper if you want to expand the field."
      else "I\x27m maintaining orbit. Drop another detail when ready."
    tone ++ " Grok vector locked. " ++ (if headline = "" then "Listening" else headline)
      ++ " indicates " ++ trendDirection ++ ". " ++ closing

def BASE_INSIGHTS : List Insight :=
  [{ id := "baseline-velocity"
     label := "Signal Velocity"
     detail := "Live trendline for how quickly the conversation is evolving."
     pulse := 0.48
     delta := 0.06 },
   { id := "baseline-composure"
     label := "Agent Composure"
     detail := "Ambient calm from the voice agent\x27s prosodic fingerprint."
     pulse := 0.62
     delta := -0.04 },
   { id := "baseline-focus"
     label := "Focus Field"
     detail := "Dominant node describing the most coherent cluster in view."
     pulse := 0.55
     delta := 0.08 }]

def buildInsights (analysis : Analysis) : List Insight :=
  if analysis.keywords = [] then BASE_INSIGHTS
  else
    let dynamic := analysis.clusters.enum.map (fun p =>
      { id := "cluster-" ++ p.2.label.toLower
        label := p.2.label ++ " Signal"
        detail := p.2.summary
        pulse := clamp (0.35 + p.2.score * 0.55 + (p.1 : ℚ) * 0.1) 0.2 0.95
        delta := clamp (analysis.sentiment * 0.6 + p.2.score * 0.3 - (p.1 : ℚ) * 0.05)
          (-0.4) 0.4 })
    (dynamic ++ BASE_INSIGHTS).take 5

structure TranscriptSegment where
  id : String
  text : String
  timestamp : Nat
deriving DecidableEq

structure SessionState where
  transcript : String
  segments : List TranscriptSegment
  compiledText : String
  agentReply : String
  lastUpdate : Nat
deriving DecidableEq

def initialState : SessionState :=
  { transcript := ""
    segments := []
    compiledText := ""
    agentReply := "Open mic. Speak your idea and I\x27ll plot the Grok visual in real-time."
    lastUpdate := 0 }

/-- The fragment-acceptance transition of the session state manager.
`now` stands for `Date.now()`; `next.slice(-6)` keeps the last 6 segments. -/
def processChunk (now : Nat) (content : String) (s : SessionState) : SessionState :=
  let trimmed := jsTrim content
  if trimmed = "" then s
  else
    let appended := s.segments ++
      [{ id := toString now ++ "-" ++ toString s.segments.length
         text := trimmed
         timestamp := now }]
    let segments := appended.drop (appended.length - 6)
    let next := if s.compiledText = "" then trimmed else s.compiledText ++ " " ++ trimmed
    let computed := analyzeText next
    { transcript := ""
      segments := segments
      compiledText := next
      agentReply := generateAgentReply trimmed computed
      lastUpdate := now }

/-- Fold a list of `(Date.now(), fragment)` events through `processChunk`. -/
def applyAll (inputs : List (Nat × String)) (s : SessionState) : SessionState :=
  inputs.foldl (fun st p => processChunk p.1 p.2 st) s

/-! ### Basic facts about `clamp` -/

theorem clamp_le_hi (value lo hi : ℚ) : clamp value lo hi ≤ hi :=
  min_le_left _ _

theorem lo_le_clamp (value lo hi : ℚ) (h : lo ≤ hi) : lo ≤ clamp value lo hi :=
  le_min h (le_max_left _ _)

theorem clamp_of_le {value lo hi : ℚ} (h1 : lo ≤ value) (h2 : value ≤ hi) :
    clamp value lo hi = value := by
  rw [clamp, max_eq_right h1, min_eq_right h2]

/-! ### The lexical normalizer -/

theorem splitOnP_mem_chars {α : Type} (p : α → Bool) (l : List α) :
    ∀ t ∈ l.splitOnP p, ∀ c ∈ t, c ∈ l ∧ p c = false := by
  induction l with
  | nil =>
    intro t ht c hc
    rw [List.splitOnP_nil] at ht
    simp only [List.mem_singleton] at ht
    subst ht
    simp at hc
  | cons a l ih =>
    intro t ht c hc
    rw [List.splitOnP_cons] at ht
    by_cases hpa : p a = true
    · rw [if_pos hpa] at ht
      rcases List.mem_cons.mp ht with h1 | h2
      · subst h1
        simp at hc
      · obtain ⟨hcl, hpc⟩ := ih t h2 c hc
        exact ⟨List.mem_cons_of_mem _ hcl, hpc⟩
    · rw [if_neg hpa] at ht
      obtain ⟨hd, tl, hsplit⟩ : ∃ hd tl, l.splitOnP p = hd :: tl := by
        rcases hsp : l.splitOnP p with _ | ⟨hd, tl⟩
        · exact absurd hsp (List.splitOnP_ne_nil p l)
        · exact ⟨hd, tl, rfl⟩
      rw [hsplit, List.modifyHead_cons] at ht
      have hhd : hd ∈ l.splitOnP p := by
        rw [hsplit]
        exact List.mem_cons_self _ _
      rcases List.mem_cons.mp ht with h1 | h2
      · subst h1
        rcases List.mem_cons.mp hc with h3 | h4
        · subst h3
          exact ⟨List.mem_cons_self _ _, by simpa using hpa⟩
        · obtain ⟨hcl, hpc⟩ := ih hd hhd c h4
          exact ⟨List.mem_cons_of_mem _ hcl, hpc⟩
      · have ht' : t ∈ l.splitOnP p := by
          rw [hsplit]
          exact List.mem_cons_of_mem _ h2
        obtain ⟨hcl, hpc⟩ := ih t ht' c hc
        exact ⟨List.mem_cons_of_mem _ hcl, hpc⟩

theorem normalizeChar_cases (c : Char) :
    isLowerAlnum (normalizeChar c) = true ∨ normalizeChar c = ' ' := by
  simp only [normalizeChar]
  split
  · left; assumption
  · right; rfl

theorem cleanTokens_sound (content : String) (token : String)
    (h : token ∈ cleanTokens content) :
    (∀ c ∈ token.data, isLowerAlnum c = true) ∧ 2 < token.length ∧ token ∉ STOP_WORDS := by
  rw [cleanTokens, List.mem_filter] at h
  obtain ⟨hmem, hpred⟩ := h
  rw [Bool.and_eq_true] at hpred
  obtain ⟨hlen, hstop⟩ := hpred
  have hlen' : 2 < token.length := of_decide_eq_true hlen
  have hstop' : token ∉ STOP_WORDS := by
    intro hmemstop
    rw [Bool.not_eq_true', List.contains, List.elem_eq_mem, decide_eq_false_iff_not] at hstop
    exact hstop hmemstop
  obtain ⟨cs, hcs, hmk⟩ := List.mem_map.mp hmem
  refine ⟨?_, hlen', hstop'⟩
  intro c hc
  have hdata : token.data = cs := by rw [← hmk]
  rw [hdata] at hc
  obtain ⟨hcmem, hcne⟩ := splitOnP_mem_chars (fun x => x == ' ') _ cs hcs c hc
  obtain ⟨c₀, _, hcc⟩ := List.mem_map.mp hcmem
  rcases normalizeChar_cases c₀ with halnum | hspace
  · rw [← hcc]
    exact halnum
  · rw [← hcc, hspace] at hcne
    simp at hcne

/-- C3: every token produced by the lexical normalizer is lowercase
alphanumeric, longer than 2 characters, and not in the stop-word set;
the empty input yields the empty token sequence. -/
theorem normalizer_output_wellformed :
    (∀ (content : String), ∀ token ∈ cleanTokens content,
        (∀ c ∈ token.data, isLowerAlnum c = true) ∧ 2 < token.length ∧ token ∉ STOP_WORDS)
      ∧ cleanTokens "" = [] :=
  ⟨fun content token h => cleanTokens_sound content token h, by decide⟩

/-- Witness for C3: the token `hello` of the input `Hello, WORLD!`. -/
theorem normalizer_output_wellformed_witness :
    "hello" ∈ cleanTokens "Hello, WORLD!"
      ∧ ((∀ c ∈ "hello".data, isLowerAlnum c = true)
          ∧ 2 < "hello".length ∧ "hello" ∉ STOP_WORDS) :=
  ⟨by decide, normalizer_output_wellformed.1 "Hello, WORLD!" "hello" (by decide)⟩

/-! ### The sentiment/energy scorer -/

theorem analyzeText_eq_cases (content : String) :
    analyzeText content
      = if cleanTokens content = [] then
          { keywords := [], sentiment := 0, energy := 0, clusters := [] }
        else
          { keywords := keywordsOf (cleanTokens content)
            sentiment := sentimentOf (cleanTokens content)
            energy := energyOf (cleanTokens content)
            clusters := clustersOf (cleanTokens content) } := rfl

theorem sentimentOf_nil : sentimentOf [] = 0 := by
  have h : ((positiveHits ([] : List String) : ℚ) - (negativeHits ([] : List String) : ℚ))
      / max ((([] : List String).length : ℚ)) 4 = 0 := by
    norm_num [positiveHits, negativeHits]
  rw [sentimentOf, h, clamp_of_le (by norm_num) (by norm_num)]

theorem energyOf_nil : energyOf [] = 0 := by
  have h : ((([] : List String).length : ℚ)) / 45 + |sentimentOf []| * 0.45 = 0 := by
    rw [sentimentOf_nil]
    norm_num
  rw [energyOf, h, clamp_of_le (by norm_num) (by norm_num)]

/-- C2: `analyzeText` computes sentiment and energy by the clamped formulas
over positive/negative hit counts and the token count, so sentiment always
lies in `[-1, 1]` and energy in `[0, 1]`. -/
theorem analyzeText_score_formulas (content : String) :
    (analyzeText content).sentiment
        = clamp (((positiveHits (cleanTokens content) : ℚ)
              - (negativeHits (cleanTokens content) : ℚ))
            / max (((cleanTokens content).length : ℚ)) 4) (-1) 1
      ∧ (analyzeText content).energy
        = clamp ((((cleanTokens content).length : ℚ)) / 45
            + |(analyzeText content).sentiment| * 0.45) 0 1
      ∧ -1 ≤ (analyzeText content).sentiment ∧ (analyzeText content).sentiment ≤ 1
      ∧ 0 ≤ (analyzeText content).energy ∧ (analyzeText content).energy ≤ 1 := by
  rw [analyzeText_eq_cases]
  by_cases h : cleanTokens content = []
  · rw [if_pos h, h]
    refine ⟨sentimentOf_nil.symm, ?_, by norm_num, by norm_num, by norm_num, by norm_num⟩
    have h0 : energyOf ([] : List String) = 0 := energyOf_nil
    rw [energyOf, sentimentOf_nil] at h0
    exact h0.symm
  · rw [if_neg h]
    exact ⟨rfl, rfl, lo_le_clamp _ _ _ (by norm_num), clamp_le_hi _ _ _,
      lo_le_clamp _ _ _ (by norm_num), clamp_le_hi _ _ _⟩

/-- C8: when the normalizer yields no tokens (in particular for the empty
corpus), `analyzeText` returns the terminal analysis: no keywords,
sentiment 0, energy 0, no clusters. -/
theorem analyzeText_empty_terminal (content : String)
    (h : cleanTokens content = []) :
    analyzeText content
      = { keywords := [], sentiment := 0, energy := 0, clusters := [] } := by
  rw [analyzeText_eq_cases, if_pos h]

/-- Witness for C8 at the empty corpus. -/
theorem analyzeText_empty_terminal_witness :
    cleanTokens "" = []
      ∧ analyzeText ""
          = { keywords := [], sentiment := 0, energy := 0, clusters := [] } :=
  ⟨by decide, analyzeText_empty_terminal "" (by decide)⟩

/-- C6: a fragment that trims to the empty string is a silent no-op:
`processChunk` returns the session state unchanged (same segments, corpus,
reply, and timestamps). -/
theorem processChunk_blank_noop (now : Nat) (content : String) (s : SessionState)
    (h : jsTrim content = "") : processChunk now content s = s := by
  rw [processChunk]
  simp only [h]
  rfl

/-- Witness for C6: a whitespace-only fragment leaves the initial state
unchanged. -/
theorem processChunk_blank_noop_witness :
    jsTrim "   " = "" ∧ processChunk 3 "   " initialState = initialState :=
  ⟨by decide, processChunk_blank_noop 3 "   " initialState (by decide)⟩

/-! ### The frequency and keyword extractor -/

theorem mem_insertionOrderKeys : ∀ (l : List String) (a : String),
    a ∈ insertionOrderKeys l ↔ a ∈ l := by
  intro l
  induction l with
  | nil => intro a; simp [insertionOrderKeys]
  | cons t ts ih =>
    intro a
    by_cases h : a = t
    · subst h
      simp [insertionOrderKeys]
    · simp [insertionOrderKeys, List.mem_filter, ih, h, bne_iff_ne]

theorem nodup_insertionOrderKeys : ∀ (l : List String), (insertionOrderKeys l).Nodup := by
  intro l
  induction l with
  | nil => simp [insertionOrderKeys]
  | cons t ts ih =>
    rw [insertionOrderKeys]
    refine List.Pairwise.cons ?_ (ih.filter _)
    intro b hb
    rw [List.mem_filter] at hb
    exact (bne_iff_ne.mp hb.2).symm

theorem pairwise_indexOf_insertionOrderKeys : ∀ (l : List String),
    (insertionOrderKeys l).Pairwise (fun a b => l.indexOf a < l.indexOf b) := by
  intro l
  induction l with
  | nil => simp [insertionOrderKeys]
  | cons t ts ih =>
    rw [insertionOrderKeys]
    refine List.Pairwise.cons ?_ ?_
    · intro b hb
      rw [List.mem_filter] at hb
      have hbt : t ≠ b := (bne_iff_ne.mp hb.2).symm
      rw [List.indexOf_cons_self, List.indexOf_cons_ne _ hbt]
      exact Nat.succ_pos _
    · refine (ih.filter _).imp_of_mem ?_
      intro a b ha hb hrel
      rw [List.mem_filter] at ha hb
      have hat : t ≠ a := (bne_iff_ne.mp ha.2).symm
      have hbt : t ≠ b := (bne_iff_ne.mp hb.2).symm
      rw [List.indexOf_cons_ne _ hat, List.indexOf_cons_ne _ hbt]
      exact Nat.succ_lt_succ hrel

theorem orderedInsert_pairwise_stable {α : Type} (f g : α → Nat) (x : α) :
    ∀ (L : List α),
      L.Pairwise (fun a b => f b < f a ∨ (f a = f b ∧ g a < g b)) →
      (∀ y ∈ L, g x < g y) →
      (List.orderedInsert (fun a b => f b ≤ f a) x L).Pairwise
        (fun a b => f b < f a ∨ (f a = f b ∧ g a < g b)) := by
  intro L
  induction L with
  | nil =>
    intro _ _
    simp [List.orderedInsert]
  | cons y L ih =>
    intro hp hg
    rw [List.orderedInsert]
    split_ifs with hr
    · -- x goes in front of y: the tie-break puts the earlier-seen key first
      refine List.Pairwise.cons ?_ hp
      have hfz : ∀ z ∈ y :: L, f z ≤ f x := by
        intro z hz
        rcases List.mem_cons.mp hz with rfl | hzL
        · exact hr
        · rcases List.rel_of_pairwise_cons hp hzL with hlt | ⟨heq, _⟩
          · exact Nat.le_trans (Nat.le_of_lt hlt) hr
          · exact heq ▸ hr
      intro z hz
      rcases Nat.lt_or_ge (f z) (f x) with hlt | hge
      · exact Or.inl hlt
      · exact Or.inr ⟨Nat.le_antisymm hge (hfz z hz), hg z hz⟩
    · -- y stays in front, x is inserted into the tail
      have hx : f x < f y := Nat.lt_of_not_le hr
      refine List.Pairwise.cons ?_ ?_
      · intro z hz
        rcases (List.mem_orderedInsert _).mp hz with rfl | hzL
        · exact Or.inl hx
        · exact List.rel_of_pairwise_cons hp hzL
      · refine ih hp.of_cons ?_
        intro z hz
        exact hg z (List.mem_cons_of_mem _ hz)

theorem insertionSort_pairwise_stable {α : Type} (f g : α → Nat) :
    ∀ (L : List α), L.Pairwise (fun a b => g a < g b) →
      (List.insertionSort (fun a b => f b ≤ f a) L).Pairwise
        (fun a b => f b < f a ∨ (f a = f b ∧ g a < g b)) := by
  intro L
  induction L with
  | nil =>
    intro _
    simp [List.insertionSort]
  | cons x L ih =>
    intro hp
    rw [List.insertionSort]
    refine orderedInsert_pairwise_stable f g x _ (ih hp.of_cons) ?_
    intro y hy
    rw [List.mem_insertionSort] at hy
    exact List.rel_of_pairwise_cons hp hy

/-- The ranking order claimed for keywords: strictly larger occurrence count
first, ties broken by the earlier first occurrence in the token sequence. -/
def keywordRank (clean : List String) (a b : String) : Prop :=
  clean.count b < clean.count a
    ∨ (clean.count a = clean.count b ∧ clean.indexOf a < clean.indexOf b)

/-- C4: for a non-empty token sequence, the keyword list is the prefix of
length (at most) 6 of a ranking of all distinct tokens ordered by descending
count with ties in first-seen order; it has length ≤ 6 and only contains
tokens of the sequence. -/
theorem keywords_are_top6 (content : String) (h : cleanTokens content ≠ []) :
    ∃ ranking : List String,
      ranking.Nodup
        ∧ (∀ t, t ∈ ranking ↔ t ∈ cleanTokens content)
        ∧ ranking.Pairwise (keywordRank (cleanTokens content))
        ∧ (analyzeText content).keywords = ranking.take 6
        ∧ (analyzeText content).keywords.length ≤ 6
        ∧ (∀ k ∈ (analyzeText content).keywords, k ∈ cleanTokens content) := by
  have hkw : (analyzeText content).keywords = keywordsOf (cleanTokens content) := by
    rw [analyzeText_eq_cases, if_neg h]
  refine ⟨List.insertionSort
      (fun a b => (cleanTokens content).count b ≤ (cleanTokens content).count a)
      (insertionOrderKeys (cleanTokens content)), ?_, ?_, ?_, ?_, ?_, ?_⟩
  · exact ((List.perm_insertionSort _ _).nodup_iff).mpr (nodup_insertionOrderKeys _)
  · intro t
    rw [List.mem_insertionSort]
    exact mem_insertionOrderKeys _ t
  · exact insertionSort_pairwise_stable (fun t => (cleanTokens content).count t)
      (fun t => (cleanTokens content).indexOf t) _
      (pairwise_indexOf_insertionOrderKeys _)
  · rw [hkw]
    rfl
  · rw [hkw, keywordsOf, List.length_take]
    exact min_le_left _ _
  · intro k hk
    rw [hkw, keywordsOf] at hk
    have hmem := List.mem_of_mem_take hk
    rw [List.mem_insertionSort] at hmem
    exact (mem_insertionOrderKeys _ k).mp hmem

/-- Witness for C4 at the input `beta alpha beta`. -/
theorem keywords_are_top6_witness :
    cleanTokens "beta alpha beta" ≠ []
      ∧ ∃ ranking : List String,
          ranking.Nodup
            ∧ (∀ t, t ∈ ranking ↔ t ∈ cleanTokens "beta alpha beta")
            ∧ ranking.Pairwise (keywordRank (cleanTokens "beta alpha beta"))
            ∧ (analyzeText "beta alpha beta").keywords = ranking.take 6
            ∧ (analyzeText "beta alpha beta").keywords.length ≤ 6
            ∧ (∀ k ∈ (analyzeText "beta alpha beta").keywords,
                k ∈ cleanTokens "beta alpha beta") :=
  ⟨by decide, keywords_are_top6 "beta alpha beta" (by decide)⟩

/-! ### The segment trail -/

/-- The last `n` entries of a list, i.e. `slice(-n)`. -/
def lastN {α : Type} (n : Nat) (l : List α) : List α :=
  l.drop (l.length - n)

/-- The `(trimmed text, timestamp)` pairs of the fragments a list of
`(Date.now(), fragment)` events gets accepted (the blank ones are dropped). -/
def acceptedEvents (inputs : List (Nat × String)) : List (String × Nat) :=
  inputs.filterMap (fun p => if jsTrim p.2 = "" then none else some (jsTrim p.2, p.1))

theorem lastN_of_le {α : Type} {n : Nat} {l : List α} (h : l.length ≤ n) :
    lastN n l = l := by
  rw [lastN, Nat.sub_eq_zero_of_le h, List.drop_zero]

theorem lastN_eq_reverse_take {α : Type} (n : Nat) (l : List α) :
    lastN n l = (l.reverse.take n).reverse := by
  rw [lastN, List.reverse_take, List.reverse_reverse, List.length_reverse]

theorem take_append_take {α : Type} (n : Nat) (u v : List α) :
    List.take n (u ++ List.take n v) = List.take n (u ++ v) := by
  rw [List.take_append_eq_append_take, List.take_append_eq_append_take, List.take_take]
  have h : (n - u.length) ⊓ n = n - u.length := inf_eq_left.mpr (Nat.sub_le _ _)
  rw [h]

theorem lastN_append_left {α : Type} (n : Nat) (a b : List α) :
    lastN n (lastN n a ++ b) = lastN n (a ++ b) := by
  rw [lastN_eq_reverse_take n (lastN n a ++ b), lastN_eq_reverse_take n (a ++ b),
    List.reverse_append, lastN_eq_reverse_take n a, List.reverse_reverse,
    List.reverse_append, take_append_take]

theorem applyAll_nil (s : SessionState) : applyAll [] s = s := rfl

theorem applyAll_cons (p : Nat × String) (rest : List (Nat × String)) (s : SessionState) :
    applyAll (p :: rest) s = applyAll rest (processChunk p.1 p.2 s) := rfl

theorem acceptedEvents_cons (p : Nat × String) (rest : List (Nat × String)) :
    acceptedEvents (p :: rest) = acceptedEvents [(p.1, p.2)] ++ acceptedEvents rest := by
  rw [acceptedEvents, acceptedEvents, acceptedEvents, List.filterMap_cons,
    List.filterMap_cons]
  by_cases h : jsTrim p.2 = "" <;> simp [h]

theorem processChunk_segments_le (now : Nat) (content : String) (s : SessionState)
    (h6 : s.segments.length ≤ 6) : (processChunk now content s).segments.length ≤ 6 := by
  by_cases h : jsTrim content = ""
  · simpa [processChunk, h] using h6
  · simp [processChunk, h, List.length_drop]
    omega

theorem processChunk_segments_step (now : Nat) (content : String) (s : SessionState)
    (h6 : s.segments.length ≤ 6) :
    (processChunk now content s).segments.map (fun g => (g.text, g.timestamp))
      = lastN 6 (s.segments.map (fun g => (g.text, g.timestamp))
          ++ acceptedEvents [(now, content)]) := by
  by_cases h : jsTrim content = ""
  · rw [show acceptedEvents [(now, content)] = [] by simp [acceptedEvents, h],
      List.append_nil, lastN_of_le (by simpa using h6)]
    simp [processChunk, h]
  · simp only [processChunk, h, if_neg, ite_false]
    rw [show acceptedEvents [(now, content)] = [(jsTrim content, now)] by
      simp [acceptedEvents, h]]
    simp [lastN, List.map_drop, List.map_append]

theorem applyAll_segments_aux (inputs : List (Nat × String)) :
    ∀ (s : SessionState), s.segments.length ≤ 6 →
      (applyAll inputs s).segments.map (fun g => (g.text, g.timestamp))
        = lastN 6 (s.segments.map (fun g => (g.text, g.timestamp))
            ++ acceptedEvents inputs) := by
  induction inputs with
  | nil =>
    intro s h6
    rw [applyAll_nil, show acceptedEvents [] = [] from rfl, List.append_nil,
      lastN_of_le (by simpa using h6)]
  | cons p rest ih =>
    intro s h6
    rw [applyAll_cons, ih _ (processChunk_segments_le _ _ _ h6),
      processChunk_segments_step _ _ _ h6, lastN_append_left, List.append_assoc,
      ← acceptedEvents_cons]

/-- C5: the segment trail always has length at most 6, holds exactly the
most recent accepted fragments (trimmed text and timestamp) in submission
order — so eviction is oldest-first — and after 8 distinct one-word
fragments the trail holds exactly fragments 3–8 in order. -/
theorem segment_trail_fifo (inputs : List (Nat × String)) :
    ((applyAll inputs initialState).segments.length ≤ 6
      ∧ (applyAll inputs initialState).segments.map (fun g => (g.text, g.timestamp))
          = lastN 6 (acceptedEvents inputs))
      ∧ (applyAll [(1, "one"), (2, "two"), (3, "three"), (4, "four"), (5, "five"),
            (6, "six"), (7, "seven"), (8, "eight")] initialState).segments.map
          (fun g => g.text)
        = ["three", "four", "five", "six", "seven", "eight"] := by
  have hmain := applyAll_segments_aux inputs initialState (by simp [initialState])
  rw [show initialState.segments = [] from rfl] at hmain
  rw [List.map_nil, List.nil_append] at hmain
  refine ⟨⟨?_, hmain⟩, by decide⟩
  have hlen := congrArg List.length hmain
  rw [List.length_map] at hlen
  rw [hlen, lastN, List.length_drop]
  omega

/-- C1 (code behaviour at the failing input): with the trail already full,
two fragments accepted in the same millisecond are given the same segment
id — here the 7th and 8th accepted fragments both get id `5-6`, so segment
ids are not unique. -/
theorem segment_id_collision :
    (applyAll [(5, "one"), (5, "two"), (5, "three"), (5, "four"), (5, "five"),
        (5, "six"), (5, "seven"), (5, "eight")] initialState).segments.map
      (fun g => g.id)
      = ["5-2", "5-3", "5-4", "5-5", "5-6", "5-6"]
    ∧ ¬ ((applyAll [(5, "one"), (5, "two"), (5, "three"), (5, "four"), (5, "five"),
        (5, "six"), (5, "seven"), (5, "eight")] initialState).segments.map
      (fun g => g.id)).Nodup :=
  ⟨by decide, by decide⟩

/-! ### The insight builder -/

/-- The dynamic insights exactly as the specification words them: for the
cluster at index `i`, `pulse = clamp(0.35 + score*0.55 + i*0.1, 0.2, 0.95)`,
`delta = clamp(sentiment*0.6 + score*0.3 - i*0.05, -0.4, 0.4)` and
`id = "cluster-" + lowercase(label)`. -/
def dynamicInsightsSpec (analysis : Analysis) : List Insight :=
  analysis.clusters.enum.map (fun p =>
    { id := "cluster-" ++ p.2.label.toLower
      label := p.2.label ++ " Signal"
      detail := p.2.summary
      pulse := clamp (0.35 + p.2.score * 0.55 + (p.1 : ℚ) * 0.1) 0.2 0.95
      delta := clamp (analysis.sentiment * 0.6 + p.2.score * 0.3 - (p.1 : ℚ) * 0.05)
        (-0.4) 0.4 })

/-- C7: the insight list has length at most 5; with no keywords it is
exactly the fixed baseline triple (with its fixed ids, in order), and
otherwise it is the dynamic insights concatenated before the baseline ones
and truncated to the first 5. -/
theorem buildInsights_spec (analysis : Analysis) :
    (buildInsights analysis).length ≤ 5
      ∧ (analysis.keywords = [] → buildInsights analysis = BASE_INSIGHTS)
      ∧ (analysis.keywords ≠ [] →
          buildInsights analysis
            = (dynamicInsightsSpec analysis ++ BASE_INSIGHTS).take 5)
      ∧ BASE_INSIGHTS.map Insight.id
          = ["baseline-velocity", "baseline-composure", "baseline-focus"] := by
  refine ⟨?_, fun h => by rw [buildInsights, if_pos h],
    fun h => by rw [buildInsights, if_neg h]; rfl, rfl⟩
  by_cases h : analysis.keywords = []
  · rw [buildInsights, if_pos h]
    decide
  · rw [buildInsights, if_neg h]
    show ((dynamicInsightsSpec analysis ++ BASE_INSIGHTS).take 5).length ≤ 5
    rw [List.length_take]
    exact min_le_left _ _

/-- Witness for C7 at the keyword-free analysis. -/
theorem buildInsights_spec_witness :
    (buildInsights { keywords := [], sentiment := 0, energy := 0, clusters := [] }).length ≤ 5
      ∧ (({ keywords := [], sentiment := 0, energy := 0, clusters := [] } : Analysis).keywords = [] →
          buildInsights { keywords := [], sentiment := 0, energy := 0, clusters := [] }
            = BASE_INSIGHTS)
      ∧ (({ keywords := [], sentiment := 0, energy := 0, clusters := [] } : Analysis).keywords ≠ [] →
          buildInsights { keywords := [], sentiment := 0, energy := 0, clusters := [] }
            = (dynamicInsightsSpec { keywords := [], sentiment := 0, energy := 0, clusters := [] }
                ++ BASE_INSIGHTS).take 5)
      ∧ BASE_INSIGHTS.map Insight.id
          = ["baseline-velocity", "baseline-composure", "baseline-focus"] :=
  buildInsights_spec { keywords := [], sentiment := 0, energy := 0, clusters := [] }

/-! ### The sentiment scenario -/

theorem sentimentOf_eval (clean : List String) (p n L : Nat)
    (hp : positiveHits clean = p) (hn : negativeHits clean = n)
    (hL : clean.length = L) :
    sentimentOf clean = clamp (((p : ℚ) - (n : ℚ)) / max ((L : ℚ)) 4) (-1) 1 := by
  rw [sentimentOf, hp, hn, hL]

/-- C9: the fragment `This is a great win for the team` yields a corpus with
strictly positive sentiment; adding `but I'm worried about the risk` yields
a combined corpus whose sentiment is strictly lower, while staying within
`[-1, 1]`. -/
theorem scenario_positive_then_negative :
    0 < (analyzeText (applyAll [(0, "This is a great win for the team")]
        initialState).compiledText).sentiment
      ∧ (analyzeText (applyAll [(0, "This is a great win for the team"),
            (1, "but I\x27m worried about the risk")] initialState).compiledText).sentiment
          < (analyzeText (applyAll [(0, "This is a great win for the team")]
              initialState).compiledText).sentiment
      ∧ -1 ≤ (analyzeText (applyAll [(0, "This is a great win for the team"),
            (1, "but I\x27m worried about the risk")] initialState).compiledText).sentiment
      ∧ (analyzeText (applyAll [(0, "This is a great win for the team"),
            (1, "but I\x27m worried about the risk")] initialState).compiledText).sentiment
          ≤ 1 := by
  have hc1 : (applyAll [(0, "This is a great win for the team")]
      initialState).compiledText = "This is a great win for the team" := by decide
  have hc2 : (applyAll [(0, "This is a great win for the team"),
        (1, "but I\x27m worried about the risk")] initialState).compiledText
      = "This is a great win for the team but I\x27m worried about the risk" := by decide
  have ht1 : cleanTokens "This is a great win for the team"
      = ["great", "win", "for", "team"] := by decide
  have ht2 : cleanTokens "This is a great win for the team but I\x27m worried about the risk"
      = ["great", "win", "for", "team", "but", "worried", "risk"] := by decide
  have hs1 : (analyzeText "This is a great win for the team").sentiment = 1 / 2 := by
    rw [analyzeText_eq_cases, ht1, if_neg (by simp)]
    show sentimentOf ["great", "win", "for", "team"] = 1 / 2
    rw [sentimentOf_eval _ 2 0 4 (by decide) (by decide) (by decide)]
    have hv : (((2 : Nat) : ℚ) - ((0 : Nat) : ℚ)) / max (((4 : Nat) : ℚ)) 4 = 1 / 2 := by
      norm_num
    rw [hv, clamp_of_le (by norm_num) (by norm_num)]
  have hs2 : (analyzeText
        "This is a great win for the team but I\x27m worried about the risk").sentiment
      = 1 / 7 := by
    rw [analyzeText_eq_cases, ht2, if_neg (by simp)]
    show sentimentOf ["great", "win", "for", "team", "but", "worried", "risk"] = 1 / 7
    rw [sentimentOf_eval _ 2 1 7 (by decide) (by decide) (by decide)]
    have hv : (((2 : Nat) : ℚ) - ((1 : Nat) : ℚ)) / max (((7 : Nat) : ℚ)) 4 = 1 / 7 := by
      rw [show max (((7 : Nat) : ℚ)) 4 = 7 by
        rw [max_eq_left (by norm_num)]
        norm_num]
      norm_num
    rw [hv, clamp_of_le (by norm_num) (by norm_num)]
  rw [hc1, hc2, hs1, hs2]
  norm_num

/-! ### Irrelevance of the positive term `up` -/

/-- The positive term list with `up` removed. -/
def POSITIVE_TERMS_WITHOUT_UP : List String :=
  ["great", "good", "awesome", "excited", "optimistic", "love", "amazing",
   "win", "growth", "positive", "better", "improve", "success", "increase"]

def positiveHitsNoUp (clean : List String) : Nat :=
  (clean.filter (fun token => POSITIVE_TERMS_WITHOUT_UP.contains token)).length

def sentimentOfNoUp (clean : List String) : ℚ :=
  clamp (((positiveHitsNoUp clean : ℚ) - (negativeHits clean : ℚ))
    / max (clean.length : ℚ) 4) (-1) 1

def energyOfNoUp (clean : List String) : ℚ :=
  clamp ((clean.length : ℚ) / 45 + |sentimentOfNoUp clean| * 0.45) 0 1

def clustersOfNoUp (clean : List String) : List Cluster :=
  ((keywordsOf clean).take 3).map (fun keyword =>
    let scoreSeed := (clean.count keyword : ℚ) / max (clean.length : ℚ) 1
    let score := clamp (scoreSeed * 2 + energyOfNoUp clean * 0.6) 0 1
    { label := capitalize keyword
      score := score
      summary := "Emerging signal around “" ++ keyword ++ "” with "
        ++ toString (jsRound (score * 100)) ++ "% clarity." })

/-- A variant of `analyzeText` with `POSITIVE_TERMS_WITHOUT_UP` in place of
`POSITIVE_TERMS`. -/
def analyzeTextNoUp (content : String) : Analysis :=
  let clean := cleanTokens content
  if clean = [] then
    { keywords := [], sentiment := 0, energy := 0, clusters := [] }
  else
    { keywords := keywordsOf clean
      sentiment := sentimentOfNoUp clean
      energy := energyOfNoUp clean
      clusters := clustersOfNoUp clean }

theorem analyzeTextNoUp_eq_cases (content : String) :
    analyzeTextNoUp content
      = if cleanTokens content = [] then
          { keywords := [], sentiment := 0, energy := 0, clusters := [] }
        else
          { keywords := keywordsOf (cleanTokens content)
            sentiment := sentimentOfNoUp (cleanTokens content)
            energy := energyOfNoUp (cleanTokens content)
            clusters := clustersOfNoUp (cleanTokens content) } := rfl

theorem up_notin_cleanTokens (content : String) : "up" ∉ cleanTokens content := by
  intro h
  have hlen := (cleanTokens_sound content "up" h).2.1
  exact absurd hlen (by decide)

theorem positiveHits_eq_noUp (content : String) :
    positiveHits (cleanTokens content) = positiveHitsNoUp (cleanTokens content) := by
  rw [positiveHits, positiveHitsNoUp]
  congr 1
  apply List.filter_congr
  intro t ht
  have hlen := (cleanTokens_sound content t ht).2.1
  have hne : t ≠ "up" := by
    intro heq
    rw [heq] at hlen
    exact absurd hlen (by decide)
  rw [List.contains, List.contains, List.elem_eq_mem, List.elem_eq_mem,
    decide_eq_decide, POSITIVE_TERMS, POSITIVE_TERMS_WITHOUT_UP]
  simp [hne]

/-- C10: no normalized token ever equals `up` (the length filter removes
it), so `analyzeText` coincides with the variant whose positive term list
omits `up`. -/
theorem up_term_never_hits (content : String) :
    "up" ∉ cleanTokens content ∧ analyzeTextNoUp content = analyzeText content := by
  refine ⟨up_notin_cleanTokens content, ?_⟩
  rw [analyzeText_eq_cases, analyzeTextNoUp_eq_cases]
  by_cases h : cleanTokens content = []
  · rw [if_pos h, if_pos h]
  · rw [if_neg h, if_neg h]
    have hs : sentimentOfNoUp (cleanTokens content) = sentimentOf (cleanTokens content) := by
      rw [sentimentOfNoUp, sentimentOf, positiveHits_eq_noUp]
    have he : energyOfNoUp (cleanTokens content) = energyOf (cleanTokens content) := by
      rw [energyOfNoUp, energyOf, hs]
    have hc : clustersOfNoUp (cleanTokens content) = clustersOf (cleanTokens content) := by
      rw [clustersOfNoUp, clustersOf, he]
    rw [hs, he, hc]
